import Mathlib

/- Verification of the eqmaps map pipeline: the line-grammar parser and
file loader of map_items.rs, and the bounding-box computation and SVG
primitive emission of map_draw.rs. Coordinates are modelled as exact
rationals: every decimal literal of the grammar denotes an exact rational,
and the properties under study are stated at that level of abstraction
(the spec allows for float rounding). Parse failures are modelled as
none; the Rust code returns Err with a message there. -/

namespace EqMaps

/-- Whitespace test modelling the regex character class backslash-s of the
separator pattern in map_items.rs on the ASCII range (Unicode whitespace
beyond ASCII is not modelled; no claim depends on it). -/
def isWs (c : Char) : Bool :=
  c == ' ' || c == '\t' || c == '\n' || c == '\r' || c == '\x0b' || c == '\x0c'

/-- The numeric value of a digit string, most significant digit first. -/
def natOfDigits (cs : List Char) : ℕ :=
  cs.foldl (fun n c => 10 * n + (c.toNat - '0'.toNat)) 0

/-- Models Rust u8::from_str as used by Color::parse: an optional leading
plus sign, then one or more decimal digits, with the value required to fit
in eight bits. An empty string, a minus sign, any other non-digit, or a
value above 255 fails (Rust returns a ParseIntError there). -/
def parseU8digits (ds : List Char) : Option ℕ :=
  if ds ≠ [] ∧ ds.all Char.isDigit ∧ natOfDigits ds ≤ 255 then
    some (natOfDigits ds)
  else
    none

/-- The sign handling of Rust u8::from_str: an optional leading plus sign
is stripped, then the digits are parsed with the eight-bit range check. -/
def parseU8 (cs : List Char) : Option ℕ :=
  parseU8digits (if cs.head? = some '+' then cs.tail else cs)

/-- Splits a character list at the first dot, if any. -/
def splitDot : List Char → Option (List Char × List Char)
  | [] => none
  | c :: cs =>
    if c = '.' then some ([], cs)
    else (splitDot cs).map (fun p => (c :: p.1, p.2))

/-- Models the finite-decimal fragment of Rust f32::from_str as used by
Point::parse, valued in exact rationals: an optional sign, then digits
with at most one dot and at least one digit overall. The exponent, inf
and nan forms of the float grammar are not modelled (no input of interest
to the claims uses them); on this fragment the set of accepted strings is
exact, and the value is the exact decimal the float parse would round. -/
def parseRat (cs : List Char) : Option ℚ :=
  let signAndRest : Bool × List Char := match cs with
    | '-' :: r => (true, r)
    | '+' :: r => (false, r)
    | r => (false, r)
  let rest := signAndRest.2
  let val : Option ℚ := match splitDot rest with
    | none =>
      if rest ≠ [] ∧ rest.all Char.isDigit then some (natOfDigits rest) else none
    | some (ip, fp) =>
      if (ip ≠ [] ∨ fp ≠ []) ∧ ip.all Char.isDigit ∧ fp.all Char.isDigit then
        some ((natOfDigits ip : ℚ) + (natOfDigits fp : ℚ) / (10 : ℚ) ^ fp.length)
      else none
  val.map (fun q => if signAndRest.1 then -q else q)

/-- The Point struct of map_items.rs, with coordinates as exact rationals
in place of f32. -/
structure Point where
  x : ℚ
  y : ℚ
  z : ℚ
  deriving DecidableEq

/-- Models Point::parse: parse the three coordinate fields, failing if any
fails. -/
def Point.parse (x y z : List Char) : Option Point := do
  let px ← parseRat x
  let py ← parseRat y
  let pz ← parseRat z
  pure { x := px, y := py, z := pz }

/-- The Color struct of map_items.rs; channels are naturals, with the
eight-bit range enforced by parseU8 exactly as u8 enforces it. -/
structure Color where
  r : ℕ
  g : ℕ
  b : ℕ
  deriving DecidableEq

/-- Models Color::parse: parse the three channel fields, failing if any
fails. -/
def Color.parse (r g b : List Char) : Option Color := do
  let cr ← parseU8 r
  let cg ← parseU8 g
  let cb ← parseU8 b
  pure { r := cr, g := cg, b := cb }

/-- The PointItem struct of map_items.rs. -/
structure PointItem where
  point : Point
  color : Color
  label : String
  deriving DecidableEq

/-- The LineItem struct of map_items.rs (the from/to fields are renamed
fromPt/toPt because from is a reserved word in Lean). -/
structure LineItem where
  fromPt : Point
  toPt : Point
  color : Color
  deriving DecidableEq

/-- The MapItem enum of map_items.rs. -/
inductive MapItem where
  | pointItem (p : PointItem)
  | lineItem (l : LineItem)
  deriving DecidableEq

/-- The MapItems struct of map_items.rs. -/
structure MapItems where
  items : List MapItem
  deriving DecidableEq

/-- Models str::split_once with a single-space needle, as both item
parsers use it: the part before the first space and the part after it, or
none when the string contains no space. -/
def splitOnceSpace : List Char → Option (List Char × List Char)
  | [] => none
  | c :: cs =>
    if c = ' ' then some ([], cs)
    else (splitOnceSpace cs).map (fun p => (c :: p.1, p.2))

/-- True when a list of characters begins with a whitespace character. -/
def headIsWs : List Char → Bool
  | c :: _ => isWs c
  | [] => false

/-- Models Regex::split with the LINE_CONTENT_SEPARATOR pattern (a comma
followed by one or more whitespace characters): the text between
successive leftmost-first maximal matches of the pattern. A match starts
at each comma directly followed by whitespace and swallows the maximal
whitespace run after that comma, so prepending a comma in front of a
whitespace run cuts a new segment there and the run (the leading
whitespace of the old first segment) is consumed. -/
def splitSegs : List Char → List (List Char)
  | [] => [[]]
  | c :: rest =>
    match splitSegs rest with
    | [] => [[c]]
    | s :: ss =>
      if c = ',' ∧ headIsWs rest = true then
        [] :: s.dropWhile isWs :: ss
      else
        (c :: s) :: ss

/-- Models PointItem::parse: discard everything through the first space,
split the remainder on the separator pattern, and require exactly eight
fields x, y, z, r, g, b, pointType (kept but unused), label. -/
def PointItem.parse (line : String) : Option PointItem := do
  let pc ← splitOnceSpace line.data
  match splitSegs pc.2 with
  | [x, y, z, r, g, b, _pointType, lab] => do
    let p ← Point.parse x y z
    let c ← Color.parse r g b
    pure { point := p, color := c, label := String.mk lab }
  | _ => none

/-- Models LineItem::parse: discard everything through the first space,
split the remainder on the separator pattern, and require exactly nine
fields fx, fy, fz, tx, ty, tz, r, g, b. -/
def LineItem.parse (line : String) : Option LineItem := do
  let pc ← splitOnceSpace line.data
  match splitSegs pc.2 with
  | [fx, fy, fz, tx, ty, tz, r, g, b] => do
    let f ← Point.parse fx fy fz
    let t ← Point.parse tx ty tz
    let c ← Color.parse r g b
    pure { fromPt := f, toPt := t, color := c }
  | _ => none

/-- Models MapItem::parse: dispatch on the first character of the line;
an empty line or an unrecognized first character fails. -/
def MapItem.parse (line : String) : Option MapItem :=
  match line.data with
  | [] => none
  | c :: _ =>
    if c = 'P' then (PointItem.parse line).map MapItem.pointItem
    else if c = 'L' then (LineItem.parse line).map MapItem.lineItem
    else none

/-- Models MapItems::load_from_file applied to the list of lines read
from a file: each line is parsed and the failures are dropped. -/
def MapItems.load_from_file (lines : List String) : MapItems :=
  { items := lines.filterMap MapItem.parse }

/-- Models MapItems::load_from_files applied to the per-file line lists:
a loop over the files pushing every item of each loaded file in order. -/
def MapItems.load_from_files (files : List (List String)) : MapItems :=
  { items := files.foldl (fun acc f => acc ++ (MapItems.load_from_file f).items) [] }

/-- An SVG drawing primitive, abstracting one emitted element string of
map_draw.rs: a path with M x1 y1 L x2 y2 and a stroke color, or a circle
with a center, radius and fill color. -/
inductive SvgPrim where
  | path (x1 y1 x2 y2 : ℚ) (stroke : Color)
  | circle (cx cy : ℚ) (radius : ℕ) (fill : Color)
  deriving DecidableEq

/-- Models SvgDraw::svg for LineItem: a path from the from point to the
to point, stroked with the item color. -/
def LineItem.svg (li : LineItem) : SvgPrim :=
  SvgPrim.path li.fromPt.x li.fromPt.y li.toPt.x li.toPt.y li.color

/-- Models SvgDraw::svg for PointItem: a circle of radius 3 centered at
the point, filled with the item color. -/
def PointItem.svg (p : PointItem) : SvgPrim :=
  SvgPrim.circle p.point.x p.point.y 3 p.color

/-- The per-item dispatch inside the body loop of SvgDraw::svg for
MapItems. -/
def MapItem.svg : MapItem → SvgPrim
  | .pointItem p => p.svg
  | .lineItem l => l.svg

/-- Models the body loop of SvgDraw::svg for MapItems: one primitive
appended per item, in iteration order. -/
def MapItems.svgBody (m : MapItems) : List SvgPrim :=
  m.items.foldl (fun acc item => acc ++ [item.svg]) []

/-- Models float_ord of map_draw.rs on the rational model (on the floats
actually reachable here the comparison agrees with the rational order). -/
def float_ord (a b : ℚ) : Ordering :=
  if a < b then Ordering.lt
  else if b < a then Ordering.gt
  else Ordering.eq

/-- The xs pushed for one item by the match in map_view_box: the x of a
point item, or the from x then the to x of a line item. -/
def MapItem.pushXs : MapItem → List ℚ
  | .lineItem l => [l.fromPt.x, l.toPt.x]
  | .pointItem p => [p.point.x]

/-- The ys pushed for one item by the match in map_view_box: the y of a
point item, or the from y then the to y of a line item. -/
def MapItem.pushYs : MapItem → List ℚ
  | .lineItem l => [l.fromPt.y, l.toPt.y]
  | .pointItem p => [p.point.y]

/-- The xs vector built by the for_each loop of map_view_box. -/
def projXs (m : MapItems) : List ℚ :=
  m.items.foldl (fun xs item => xs ++ item.pushXs) []

/-- The ys vector built by the for_each loop of map_view_box. -/
def projYs (m : MapItems) : List ℚ :=
  m.items.foldl (fun ys item => ys ++ item.pushYs) []

/-- The ascending order induced by the float_ord comparator, as
Vec::sort_by reads it: an element may precede another when comparing them
does not return Greater. -/
def floatLe (a b : ℚ) : Prop := float_ord a b ≠ Ordering.gt

instance : DecidableRel floatLe :=
  fun a b => inferInstanceAs (Decidable (float_ord a b ≠ Ordering.gt))

/-- Models Vec::sort_by with the float_ord comparator: the reordering of
the vector that is sorted for the comparator. For this comparator ties
are exact equalities, so every sort returns the same list and the choice
of sorting algorithm is immaterial. -/
def sortFloats (l : List ℚ) : List ℚ :=
  l.insertionSort floatLe

/-- Models map_view_box: sort both coordinate vectors with float_ord,
take first and last with a 0 fallback for the empty case, and return
(min x, min y, max x - min x, max y - min y). -/
def map_view_box (m : MapItems) : ℚ × ℚ × ℚ × ℚ :=
  let xs := sortFloats (projXs m)
  let ys := sortFloats (projYs m)
  let min_x := xs.head?.getD 0
  let min_y := ys.head?.getD 0
  let max_x := xs.getLast?.getD 0
  let max_y := ys.getLast?.getD 0
  (min_x, min_y, max_x - min_x, max_y - min_y)

/-- The whole vector document of SvgDraw::svg for MapItems, abstracted:
the svg header carries the view box from map_view_box (its width and
height also serve as the document size), and the body is one primitive
per item. -/
structure SvgDoc where
  viewBox : ℚ × ℚ × ℚ × ℚ
  prims : List SvgPrim
  deriving DecidableEq

/-- Models SvgDraw::svg for MapItems: the document with the computed view
box and the primitives of the body loop. -/
def MapItems.svg (m : MapItems) : SvgDoc :=
  { viewBox := map_view_box m, prims := m.svgBody }

/-- Occurrence test used by claim C10: some comma in the text is
immediately followed by a whitespace character. -/
def hasCommaWs : List Char → Bool
  | [] => false
  | [_] => false
  | c :: c2 :: rest => (c == ',' && isWs c2) || hasCommaWs (c2 :: rest)

/-- Two points that agree on x and y but may differ on z. -/
def Point.sameXY (p q : Point) : Prop := p.x = q.x ∧ p.y = q.y

/-- Two map items that differ at most in the z coordinates of their
points: same variant, same colors and labels, same x and y everywhere. -/
def MapItem.sameXY : MapItem → MapItem → Prop
  | .pointItem p, .pointItem q =>
    p.point.sameXY q.point ∧ p.color = q.color ∧ p.label = q.label
  | .lineItem la, .lineItem lb =>
    la.fromPt.sameXY lb.fromPt ∧ la.toPt.sameXY lb.toPt ∧ la.color = lb.color
  | _, _ => False

/-- A concrete one-point item set for the C3 witness. -/
def samplePointItems : MapItems :=
  { items := [.pointItem { point := { x := 3, y := 4, z := 9 }, color := { r := 0, g := 0, b := 0 }, label := String.mk ("a".data) }] }

/-- A fold that appends a block per element builds the concatenation of
the blocks after the accumulator. -/
theorem foldl_append_blocks {α β : Type} (g : α → List β) :
    ∀ (l : List α) (acc : List β),
      l.foldl (fun a x => a ++ g x) acc = acc ++ (l.map g).flatten := by
  intro l
  induction l with
  | nil => simp
  | cons x xs ih => intro acc; simp [List.foldl_cons, ih]

/-- The comparator order floatLe coincides with the rational order. -/
theorem floatLe_iff (a b : ℚ) : floatLe a b ↔ a ≤ b := by
  unfold floatLe float_ord
  by_cases h1 : a < b
  · simp [h1, le_of_lt h1]
  · by_cases h2 : b < a
    · simp [h1, h2, not_le.mpr h2]
    · simp [h1, h2, le_of_not_lt h2]

/-- Sorting with the float_ord comparator permutes the input. -/
theorem sortFloats_perm (l : List ℚ) : (sortFloats l).Perm l :=
  List.perm_insertionSort floatLe l

/-- Sorting with the float_ord comparator yields an ascending list. -/
theorem sortFloats_sorted (l : List ℚ) : List.Sorted (· ≤ ·) (sortFloats l) := by
  have htot : IsTotal ℚ floatLe := ⟨fun a b => by
    rcases le_total a b with h | h
    · exact Or.inl ((floatLe_iff a b).mpr h)
    · exact Or.inr ((floatLe_iff b a).mpr h)⟩
  have htr : IsTrans ℚ floatLe := ⟨fun a b c hab hbc =>
    (floatLe_iff a c).mpr (le_trans ((floatLe_iff a b).mp hab) ((floatLe_iff b c).mp hbc))⟩
  exact List.Pairwise.imp (fun h => (floatLe_iff _ _).mp h)
    (List.sorted_insertionSort floatLe l)

/-- The head of an ascending list is a lower bound for its elements. -/
theorem sorted_head_le {l : List ℚ} (hs : List.Sorted (· ≤ ·) l) (hne : l ≠ []) :
    ∀ a ∈ l, l.head hne ≤ a := by
  match l with
  | b :: t =>
    intro a ha
    rcases List.mem_cons.mp ha with rfl | ha
    · exact le_refl _
    · exact List.rel_of_sorted_cons hs a ha

/-- The last element of an ascending list is an upper bound for its
elements. -/
theorem sorted_getLast_ge {l : List ℚ} (hs : List.Sorted (· ≤ ·) l) (hne : l ≠ []) :
    ∀ a ∈ l, a ≤ l.getLast hne := by
  induction l with
  | nil => exact absurd rfl hne
  | cons b t ih =>
    intro a ha
    match t, ha with
    | [], ha =>
      rcases List.mem_cons.mp ha with rfl | ha
      · exact le_refl _
      · exact absurd ha (List.not_mem_nil a)
    | c :: t2, ha =>
      rw [List.getLast_cons (by simp)]
      rcases List.mem_cons.mp ha with rfl | ha
      · exact le_trans
          (List.rel_of_sorted_cons hs _ (List.getLast_mem (l := c :: t2) (by simp)))
          (le_refl _)
      · exact ih (List.Sorted.of_cons hs) (by simp) a ha

/-- Every item pushes at least one x in the for_each loop. -/
theorem pushXs_ne_nil (item : MapItem) : item.pushXs ≠ [] := by
  cases item <;> simp [MapItem.pushXs]

/-- Every item pushes at least one y in the for_each loop. -/
theorem pushYs_ne_nil (item : MapItem) : item.pushYs ≠ [] := by
  cases item <;> simp [MapItem.pushYs]

/-- The xs vector of the loop is the concatenation of the per-item
pushes. -/
theorem projXs_eq (m : MapItems) :
    projXs m = (m.items.map MapItem.pushXs).flatten := by
  unfold projXs
  rw [foldl_append_blocks]
  simp

/-- The ys vector of the loop is the concatenation of the per-item
pushes. -/
theorem projYs_eq (m : MapItems) :
    projYs m = (m.items.map MapItem.pushYs).flatten := by
  unfold projYs
  rw [foldl_append_blocks]
  simp

/-- A nonempty item list yields a nonempty xs vector. -/
theorem projXs_ne_nil {m : MapItems} (h : m.items ≠ []) : projXs m ≠ [] := by
  rw [projXs_eq]
  match m, h with
  | ⟨i :: rest⟩, h =>
    simp only [List.map_cons, List.flatten_cons]
    intro hc
    exact pushXs_ne_nil i (List.append_eq_nil.mp hc).1

/-- A nonempty item list yields a nonempty ys vector. -/
theorem projYs_ne_nil {m : MapItems} (h : m.items ≠ []) : projYs m ≠ [] := by
  rw [projYs_eq]
  match m, h with
  | ⟨i :: rest⟩, h =>
    simp only [List.map_cons, List.flatten_cons]
    intro hc
    exact pushYs_ne_nil i (List.append_eq_nil.mp hc).1

/-- A sorted permutation of a nonempty list is nonempty. -/
theorem sortFloats_ne_nil {l : List ℚ} (h : l ≠ []) : sortFloats l ≠ [] := by
  intro hc
  exact h (List.length_eq_zero.mp (((sortFloats_perm l).length_eq).symm.trans
    (by rw [hc]; rfl)))

/-- On a nonempty item list, map_view_box returns the minima of the
projected coordinates as origin and the ranges as width and height. -/
theorem view_box_bounds (m : MapItems) (h : m.items ≠ []) :
    ∃ minX minY maxX maxY : ℚ,
      minX ∈ projXs m ∧ (∀ a ∈ projXs m, minX ≤ a) ∧
      maxX ∈ projXs m ∧ (∀ a ∈ projXs m, a ≤ maxX) ∧
      minY ∈ projYs m ∧ (∀ a ∈ projYs m, minY ≤ a) ∧
      maxY ∈ projYs m ∧ (∀ a ∈ projYs m, a ≤ maxY) ∧
      map_view_box m = (minX, minY, maxX - minX, maxY - minY) := by
  have hxs := projXs_ne_nil h
  have hys := projYs_ne_nil h
  have hsx := sortFloats_ne_nil hxs
  have hsy := sortFloats_ne_nil hys
  have permx := sortFloats_perm (projXs m)
  have permy := sortFloats_perm (projYs m)
  refine ⟨(sortFloats (projXs m)).head hsx, (sortFloats (projYs m)).head hsy,
    (sortFloats (projXs m)).getLast hsx, (sortFloats (projYs m)).getLast hsy,
    ?_, ?_, ?_, ?_, ?_, ?_, ?_, ?_, ?_⟩
  · exact permx.mem_iff.mp (List.head_mem hsx)
  · intro a ha
    exact sorted_head_le (sortFloats_sorted (projXs m)) hsx a (permx.mem_iff.mpr ha)
  · exact permx.mem_iff.mp (List.getLast_mem hsx)
  · intro a ha
    exact sorted_getLast_ge (sortFloats_sorted (projXs m)) hsx a (permx.mem_iff.mpr ha)
  · exact permy.mem_iff.mp (List.head_mem hsy)
  · intro a ha
    exact sorted_head_le (sortFloats_sorted (projYs m)) hsy a (permy.mem_iff.mpr ha)
  · exact permy.mem_iff.mp (List.getLast_mem hsy)
  · intro a ha
    exact sorted_getLast_ge (sortFloats_sorted (projYs m)) hsy a (permy.mem_iff.mpr ha)
  · show (let xs := sortFloats (projXs m);
      let ys := sortFloats (projYs m);
      let min_x := xs.head?.getD 0;
      let min_y := ys.head?.getD 0;
      let max_x := xs.getLast?.getD 0;
      let max_y := ys.getLast?.getD 0;
      (min_x, min_y, max_x - min_x, max_y - min_y)) = _
    simp only [List.head?_eq_head hsx, List.head?_eq_head hsy,
      List.getLast?_eq_getLast _ hsx, List.getLast?_eq_getLast _ hsy,
      Option.getD_some]

/-- Regex splitting always yields at least one segment. -/
theorem splitSegs_ne_nil : ∀ l : List Char, splitSegs l ≠ [] := by
  intro l
  cases l with
  | nil => simp [splitSegs]
  | cons c rest =>
    simp only [splitSegs]
    cases hsp : splitSegs rest with
    | nil => simp
    | cons s ss => dsimp only; split <;> simp

/-- Removing the head preserves absence of the comma-whitespace
pattern. -/
theorem hasCommaWs_tail {c : Char} {l : List Char}
    (h : hasCommaWs (c :: l) = false) : hasCommaWs l = false := by
  cases l with
  | nil => rfl
  | cons c2 rest =>
    have := h
    simp only [hasCommaWs, Bool.or_eq_false_iff] at this
    exact this.2

/-- A suffix of a text without the comma-whitespace pattern is itself
without the pattern. -/
theorem hasCommaWs_suffix {l1 l2 : List Char} (h : l1 <:+ l2)
    (hp : hasCommaWs l2 = false) : hasCommaWs l1 = false := by
  obtain ⟨t, ht⟩ := h
  induction t generalizing l2 with
  | nil => rw [← ht] at hp; exact hp
  | cons c t2 ih =>
    cases ht
    exact ih (hasCommaWs_tail hp) rfl

/-- Dropping a whitespace prefix preserves absence of the
comma-whitespace pattern. -/
theorem hasCommaWs_dropWhile {l : List Char} (hp : hasCommaWs l = false) :
    hasCommaWs (l.dropWhile isWs) = false :=
  hasCommaWs_suffix (List.dropWhile_suffix isWs) hp

/-- When the first segment of a split is nonempty, it starts with the
first character of the text. -/
theorem splitSegs_head_char :
    ∀ (l : List Char) (c2 : Char) (t : List Char) (ss : List (List Char)),
      splitSegs l = (c2 :: t) :: ss → l.head? = some c2 := by
  intro l c2 t ss h
  cases l with
  | nil => simp [splitSegs] at h
  | cons r rr =>
    simp only [splitSegs] at h
    cases hsp : splitSegs rr with
    | nil => exact absurd hsp (splitSegs_ne_nil rr)
    | cons s2 ss2 =>
      rw [hsp] at h
      dsimp only at h
      by_cases hc : r = ',' ∧ headIsWs rr = true
      · rw [if_pos hc] at h
        simp at h
      · rw [if_neg hc] at h
        have := (List.cons.injEq .. ▸ h).1
        cases this
        rfl

/-- No segment produced by the separator split contains a comma directly
followed by whitespace: any such occurrence is itself a separator. -/
theorem splitSegs_no_pattern :
    ∀ l : List Char, ∀ s ∈ splitSegs l, hasCommaWs s = false := by
  intro l
  induction l with
  | nil =>
    intro s hs
    simp [splitSegs] at hs
    rw [hs]
    rfl
  | cons c rest ih =>
    intro s hs
    simp only [splitSegs] at hs
    cases hsp : splitSegs rest with
    | nil => exact absurd hsp (splitSegs_ne_nil rest)
    | cons s2 ss2 =>
      rw [hsp] at hs
      dsimp only at hs
      by_cases hc : c = ',' ∧ headIsWs rest = true
      · rw [if_pos hc] at hs
        rcases List.mem_cons.mp hs with rfl | hs2
        · rfl
        rcases List.mem_cons.mp hs2 with rfl | hs3
        · exact hasCommaWs_dropWhile (ih s2 (by rw [hsp]; exact List.mem_cons_self ..))
        · exact ih s (by rw [hsp]; exact List.mem_cons_of_mem _ hs3)
      · rw [if_neg hc] at hs
        rcases List.mem_cons.mp hs with rfl | hmem
        · cases hs2 : s2 with
          | nil => rfl
          | cons c2 t =>
            have hhead : rest.head? = some c2 :=
              splitSegs_head_char rest c2 t ss2 (by rw [hsp, hs2])
            have h1 : hasCommaWs (c2 :: t) = false := by
              rw [← hs2]
              exact ih s2 (by rw [hsp]; exact List.mem_cons_self ..)
            simp only [hasCommaWs, h1, Bool.or_false, Bool.and_eq_false_iff]
            by_cases hcq : c = ','
            · right
              cases rest with
              | nil => simp at hhead
              | cons r2 rr2 =>
                have : r2 = c2 := by simpa using hhead
                subst this
                cases hiw : isWs r2 with
                | false => rfl
                | true => exact absurd ⟨hcq, by simp [headIsWs, hiw]⟩ hc
            · left
              simpa using hcq
        · exact ih s (by rw [hsp]; exact List.mem_cons_of_mem _ hmem)

/-- A text without a space has no split_once decomposition. -/
theorem splitOnceSpace_of_no_space :
    ∀ l : List Char, ' ' ∉ l → splitOnceSpace l = none := by
  intro l
  induction l with
  | nil => intro h; rfl
  | cons c cs ih =>
    intro h
    have hc : ¬(c = ' ') := fun e => h (e ▸ List.mem_cons_self ..)
    have hcs : ' ' ∉ cs := fun e => h (List.mem_cons_of_mem _ e)
    simp [splitOnceSpace, hc, ih hcs]

/-- Characterization of a successful PointItem parse: the line splits at
its first space, the content has exactly eight fields, and the item
carries the parses of the first six fields and the verbatim label. -/
theorem pointItem_parse_eq_some (s : String) (p : PointItem) :
    PointItem.parse s = some p ↔
      ∃ pre content x y z r g b pt lab,
        splitOnceSpace s.data = some (pre, content) ∧
        splitSegs content = [x, y, z, r, g, b, pt, lab] ∧
        Point.parse x y z = some p.point ∧
        Color.parse r g b = some p.color ∧
        p.label = String.mk lab := by
  constructor
  · intro h
    cases hsp : splitOnceSpace s.data with
    | none => rw [PointItem.parse, hsp] at h; exact absurd h (by simp)
    | some pc =>
      obtain ⟨pre, content⟩ := pc
      rw [PointItem.parse, hsp] at h
      simp only [Option.bind_eq_bind, Option.some_bind] at h
      split at h
      · next x y z r g b pt lab heq =>
        simp only [Option.bind_eq_bind, Option.bind_eq_some, Option.pure_def] at h
        obtain ⟨pp, hpp, cc, hcc, hpure⟩ := h
        obtain rfl : ({ point := pp, color := cc, label := String.mk lab } : PointItem) = p := by
          simpa using hpure
        exact ⟨pre, content, x, y, z, r, g, b, pt, lab, rfl, heq, hpp, hcc, rfl⟩
      · exact absurd h (by simp)
  · rintro ⟨pre, content, x, y, z, r, g, b, pt, lab, hsp, hsegs, hpp, hcc, hlab⟩
    rw [PointItem.parse, hsp]
    have heta : PointItem.mk p.point p.color p.label = p := rfl
    simp [hsegs, hpp, hcc, ← hlab, heta]

/-- Characterization of a successful LineItem parse: the line splits at
its first space, the content has exactly nine fields, and the item
carries the parses of those fields. -/
theorem lineItem_parse_eq_some (s : String) (li : LineItem) :
    LineItem.parse s = some li ↔
      ∃ pre content fx fy fz tx ty tz r g b,
        splitOnceSpace s.data = some (pre, content) ∧
        splitSegs content = [fx, fy, fz, tx, ty, tz, r, g, b] ∧
        Point.parse fx fy fz = some li.fromPt ∧
        Point.parse tx ty tz = some li.toPt ∧
        Color.parse r g b = some li.color := by
  constructor
  · intro h
    cases hsp : splitOnceSpace s.data with
    | none => rw [LineItem.parse, hsp] at h; exact absurd h (by simp)
    | some pc =>
      obtain ⟨pre, content⟩ := pc
      rw [LineItem.parse, hsp] at h
      simp only [Option.bind_eq_bind, Option.some_bind] at h
      split at h
      · next fx fy fz tx ty tz r g b heq =>
        simp only [Option.bind_eq_bind, Option.bind_eq_some, Option.pure_def] at h
        obtain ⟨f, hf, t, ht, cc, hcc, hpure⟩ := h
        obtain rfl : ({ fromPt := f, toPt := t, color := cc } : LineItem) = li := by
          simpa using hpure
        exact ⟨pre, content, fx, fy, fz, tx, ty, tz, r, g, b, rfl, heq, hf, ht, hcc⟩
      · exact absurd h (by simp)
  · rintro ⟨pre, content, fx, fy, fz, tx, ty, tz, r, g, b, hsp, hsegs, hf, ht, hcc⟩
    rw [LineItem.parse, hsp]
    have heta : LineItem.mk li.fromPt li.toPt li.color = li := rfl
    simp [hsegs, hf, ht, hcc, heta]

/-- A point line whose content does not have exactly eight fields fails
to parse. -/
theorem pointItem_parse_none_of_count (s : String) (pre content : List Char)
    (hsp : splitOnceSpace s.data = some (pre, content))
    (hn : (splitSegs content).length ≠ 8) : PointItem.parse s = none := by
  rw [PointItem.parse, hsp]
  simp only [Option.bind_eq_bind, Option.some_bind]
  split
  · next x y z r g b pt lab heq => exact absurd (by rw [heq]; rfl) hn
  · rfl

/-- A line line whose content does not have exactly nine fields fails to
parse. -/
theorem lineItem_parse_none_of_count (s : String) (pre content : List Char)
    (hsp : splitOnceSpace s.data = some (pre, content))
    (hn : (splitSegs content).length ≠ 9) : LineItem.parse s = none := by
  rw [LineItem.parse, hsp]
  simp only [Option.bind_eq_bind, Option.some_bind]
  split
  · next fx fy fz tx ty tz r g b heq => exact absurd (by rw [heq]; rfl) hn
  · rfl

/-- The dispatcher returns a point item exactly when the first character
is P and the point parser succeeds. -/
theorem mapItem_parse_eq_point (s : String) (p : PointItem) :
    MapItem.parse s = some (.pointItem p) ↔
      s.data.head? = some 'P' ∧ PointItem.parse s = some p := by
  rw [MapItem.parse]
  cases hd : s.data with
  | nil => simp
  | cons c t =>
    dsimp only
    by_cases hP : c = 'P'
    · subst hP
      simp [Option.map_eq_some]
    · rw [if_neg hP]
      by_cases hL : c = 'L'
      · subst hL
        simp only [if_pos rfl, List.head?_cons, Option.some.injEq]
        constructor
        · intro h
          obtain ⟨li, _, hbad⟩ := Option.map_eq_some.mp h
          exact absurd hbad (by simp)
        · rintro ⟨hc, _⟩
          exact absurd hc (by decide)
      · rw [if_neg hL]
        simp only [List.head?_cons, Option.some.injEq]
        constructor
        · intro h; exact absurd h (by simp)
        · rintro ⟨hc, _⟩; exact absurd hc hP

/-- The dispatcher returns a line item exactly when the first character
is L and the line parser succeeds. -/
theorem mapItem_parse_eq_line (s : String) (li : LineItem) :
    MapItem.parse s = some (.lineItem li) ↔
      s.data.head? = some 'L' ∧ LineItem.parse s = some li := by
  rw [MapItem.parse]
  cases hd : s.data with
  | nil => simp
  | cons c t =>
    dsimp only
    by_cases hP : c = 'P'
    · subst hP
      simp only [if_pos rfl, List.head?_cons, Option.some.injEq]
      constructor
      · intro h
        obtain ⟨pp, _, hbad⟩ := Option.map_eq_some.mp h
        exact absurd hbad (by simp)
      · rintro ⟨hc, _⟩
        exact absurd hc (by decide)
    · rw [if_neg hP]
      by_cases hL : c = 'L'
      · subst hL
        simp [Option.map_eq_some]
      · rw [if_neg hL]
        simp only [List.head?_cons, Option.some.injEq]
        constructor
        · intro h; exact absurd h (by simp)
        · rintro ⟨hc, _⟩; exact absurd hc hL

/-- C1: for every syntactically valid point line (tag P, a space, and
eight separator-split fields whose numeric parts parse), parse returns a
PointItem whose point coordinates, color channels, and label equal the
literal field values of the line; in particular parsing the line
P 1.0, 2.0, 0.0, 255, 0, 0, 1, home yields a PointItem with point
(1, 2, 0), color (255, 0, 0) and label home. -/
theorem eqmaps_C1 :
    (∀ (s : String) (pre content x y z r g b pt lab : List Char)
        (p : Point) (c : Color),
      s.data.head? = some 'P' →
      splitOnceSpace s.data = some (pre, content) →
      splitSegs content = [x, y, z, r, g, b, pt, lab] →
      Point.parse x y z = some p →
      Color.parse r g b = some c →
      MapItem.parse s =
        some (.pointItem { point := p, color := c, label := String.mk lab }))
    ∧ MapItem.parse "P 1.0, 2.0, 0.0, 255, 0, 0, 1, home" =
        some (.pointItem { point := { x := 1, y := 2, z := 0 }, color := { r := 255, g := 0, b := 0 }, label := "home" }) := by
  constructor
  · intro s pre content x y z r g b pt lab p c hhead hsp hsegs hp hc
    exact (mapItem_parse_eq_point s _).mpr ⟨hhead,
      (pointItem_parse_eq_some s _).mpr
        ⟨pre, content, x, y, z, r, g, b, pt, lab, hsp, hsegs, hp, hc, rfl⟩⟩
  · simp [MapItem.parse, PointItem.parse, Point.parse, Color.parse, parseRat,
      parseU8, parseU8digits, splitDot, splitSegs, splitOnceSpace, natOfDigits,
      isWs, headIsWs]

/-- Witness for C1 at a concrete valid point line. -/
theorem eqmaps_C1_witness :
    MapItem.parse "P 3, 4, 9, 12, 34, 56, 2, spot" =
      some (.pointItem { point := { x := 3, y := 4, z := 9 }, color := { r := 12, g := 34, b := 56 }, label := String.mk ("spot".data) }) :=
  eqmaps_C1.1 "P 3, 4, 9, 12, 34, 56, 2, spot" ("P".data)
    ("3, 4, 9, 12, 34, 56, 2, spot".data)
    ("3".data) ("4".data) ("9".data) ("12".data) ("34".data) ("56".data)
    ("2".data) ("spot".data)
    { x := 3, y := 4, z := 9 } { r := 12, g := 34, b := 56 }
    (by decide) (by decide) (by decide) (by decide) (by decide)

/-- C2: a line parses to a LineItem with the stated endpoints and color
exactly when it starts with L and its content splits into exactly nine
fields fx, fy, fz, tx, ty, tz, r, g, b that each parse; any other field
count on a line line is a parse failure. -/
theorem eqmaps_C2 :
    (∀ (s : String) (li : LineItem),
      MapItem.parse s = some (.lineItem li) ↔
        (s.data.head? = some 'L' ∧
         ∃ pre content fx fy fz tx ty tz r g b,
           splitOnceSpace s.data = some (pre, content) ∧
           splitSegs content = [fx, fy, fz, tx, ty, tz, r, g, b] ∧
           Point.parse fx fy fz = some li.fromPt ∧
           Point.parse tx ty tz = some li.toPt ∧
           Color.parse r g b = some li.color))
    ∧ (∀ (s : String) (pre content : List Char),
        s.data.head? = some 'L' →
        splitOnceSpace s.data = some (pre, content) →
        (splitSegs content).length ≠ 9 →
        MapItem.parse s = none) := by
  constructor
  · intro s li
    rw [mapItem_parse_eq_line, lineItem_parse_eq_some]
  · intro s pre content hhead hsp hn
    have hline := lineItem_parse_none_of_count s pre content hsp hn
    rw [MapItem.parse]
    cases hd : s.data with
    | nil => rfl
    | cons c t =>
      have hc : c = 'L' := by rw [hd] at hhead; simpa using hhead
      subst hc
      dsimp only
      rw [if_neg (by decide), if_pos rfl, hline]
      rfl

/-- Witness for C2 at a concrete valid line line and a concrete
three-field line line. -/
theorem eqmaps_C2_witness :
    MapItem.parse "L 1, 2, 3, 4, 5, 6, 7, 8, 9" =
      some (.lineItem { fromPt := { x := 1, y := 2, z := 3 }, toPt := { x := 4, y := 5, z := 6 }, color := { r := 7, g := 8, b := 9 } })
    ∧ MapItem.parse "L 1, 2, 3" = none :=
  ⟨(eqmaps_C2.1 "L 1, 2, 3, 4, 5, 6, 7, 8, 9" _).mpr
    ⟨by decide, ("L".data), ("1, 2, 3, 4, 5, 6, 7, 8, 9".data),
      ("1".data), ("2".data), ("3".data), ("4".data), ("5".data), ("6".data),
      ("7".data), ("8".data), ("9".data),
      by decide, by decide, by decide, by decide, by decide⟩,
   eqmaps_C2.2 "L 1, 2, 3" ("L".data) ("1, 2, 3".data)
     (by decide) (by decide) (by decide)⟩

/-- C7 counterexample: a line whose tag P is followed by more characters
before the first space still parses successfully, because everything
before the first space is discarded; the claim that no such line parses
is therefore false. -/
theorem eqmaps_C7_cex :
    MapItem.parse "PQRS 3, 4, 9, 12, 34, 56, 2, spot" =
      some (.pointItem { point := { x := 3, y := 4, z := 9 }, color := { r := 12, g := 34, b := 56 }, label := String.mk ("spot".data) }) := by
  decide

/-- C7 as amended: a line containing no space at all fails to parse (the
split at the first space finds nothing); but the tag need not be followed
immediately by the space, since the parsers discard everything before the
first space. -/
theorem eqmaps_C7_amended : ∀ s : String, ' ' ∉ s.data → MapItem.parse s = none := by
  intro s h
  have hsp : splitOnceSpace s.data = none := splitOnceSpace_of_no_space s.data h
  have hpoint : PointItem.parse s = none := by
    rw [PointItem.parse, hsp]; rfl
  have hline : LineItem.parse s = none := by
    rw [LineItem.parse, hsp]; rfl
  rw [MapItem.parse]
  cases hd : s.data with
  | nil => rfl
  | cons c t =>
    dsimp only
    split_ifs <;> simp [hpoint, hline]

/-- Witness for the amended C7 at a concrete space-free line. -/
theorem eqmaps_C7_witness :
    ' ' ∉ ("P3,4" : String).data ∧ MapItem.parse "P3,4" = none :=
  ⟨by decide, eqmaps_C7_amended "P3,4" (by decide)⟩

/-- C8: the r, g, b fields parse as eight-bit unsigned integers; a
non-numeric character or a value above 255 is a parse failure rather than
a clamp, and every successfully constructed Color has all channels in
[0, 255]. -/
theorem eqmaps_C8 :
    (∀ (r g b : List Char) (c : Color),
      Color.parse r g b = some c → c.r ≤ 255 ∧ c.g ≤ 255 ∧ c.b ≤ 255)
    ∧ (∀ (cs : List Char) (n : ℕ), parseU8 cs = some n → n ≤ 255)
    ∧ (∀ cs : List Char,
        (∃ ch ∈ cs, ch.isDigit = false ∧ ch ≠ '+') → parseU8 cs = none)
    ∧ (∀ cs : List Char,
        cs.all Char.isDigit = true → 255 < natOfDigits cs → parseU8 cs = none) := by
  have hdsome : ∀ (ds : List Char) (n : ℕ), parseU8digits ds = some n → n ≤ 255 := by
    intro ds n h
    rw [parseU8digits] at h
    split at h
    · next hcond =>
      cases h
      exact hcond.2.2
    · exact absurd h (by simp)
  have hsome : ∀ (cs : List Char) (n : ℕ), parseU8 cs = some n → n ≤ 255 := by
    intro cs n h
    exact hdsome _ n h
  have hdbad : ∀ (ds : List Char) (ch : Char), ch ∈ ds → ch.isDigit = false →
      parseU8digits ds = none := by
    intro ds ch hmem hnd
    rw [parseU8digits, if_neg]
    intro hcond
    have := List.all_eq_true.mp hcond.2.1 ch hmem
    rw [hnd] at this
    exact absurd this (by simp)
  refine ⟨?_, hsome, ?_, ?_⟩
  · intro r g b c h
    rw [Color.parse] at h
    simp only [Option.bind_eq_bind, Option.bind_eq_some, Option.pure_def] at h
    obtain ⟨cr, hcr, cg, hcg, cb, hcb, hpure⟩ := h
    obtain rfl : ({ r := cr, g := cg, b := cb } : Color) = c := by simpa using hpure
    exact ⟨hsome r cr hcr, hsome g cg hcg, hsome b cb hcb⟩
  · intro cs hex
    obtain ⟨ch, hmem, hnd, hne⟩ := hex
    rw [parseU8]
    refine hdbad _ ch ?_ hnd
    split
    · next hplus =>
      cases cs with
      | nil => exact absurd hmem (List.not_mem_nil ch)
      | cons c0 rest =>
        have : c0 = '+' := by simpa using hplus
        subst this
        rcases List.mem_cons.mp hmem with rfl | hm
        · exact absurd rfl hne
        · exact hm
    · exact hmem
  · intro cs hall hgt
    have hds : (if cs.head? = some '+' then cs.tail else cs) = cs := by
      split
      · next hplus =>
        cases cs with
        | nil => rfl
        | cons c0 rest =>
          have hc0 : c0 = '+' := by simpa using hplus
          have := List.all_eq_true.mp hall c0 (List.mem_cons_self ..)
          rw [hc0] at this
          exact absurd this (by decide)
      · rfl
    rw [parseU8, hds, parseU8digits, if_neg]
    intro hcond
    exact absurd hcond.2.2 (not_le.mpr hgt)

/-- Witness for C8 at concrete channel fields. -/
theorem eqmaps_C8_witness :
    Color.parse ("255".data) ("0".data) ("7".data) = some { r := 255, g := 0, b := 7 }
    ∧ (255 ≤ 255 ∧ 0 ≤ 255 ∧ 7 ≤ 255)
    ∧ parseU8 ("256".data) = none
    ∧ parseU8 ("2a5".data) = none :=
  ⟨by decide,
   eqmaps_C8.1 ("255".data) ("0".data) ("7".data) { r := 255, g := 0, b := 7 } (by decide),
   eqmaps_C8.2.2.2 ("256".data) (by decide) (by decide),
   eqmaps_C8.2.2.1 ("2a5".data) ⟨'a', by decide, by decide, by decide⟩⟩

/-- C10: no segment produced by the separator split contains a comma
directly followed by whitespace, so the label of a successfully parsed
point item never does; and a point line whose content does not split into
exactly eight segments (as happens when the intended label contains a
comma followed by whitespace) fails to parse. -/
theorem eqmaps_C10 :
    (∀ content : List Char, ∀ seg ∈ splitSegs content, hasCommaWs seg = false)
    ∧ (∀ (s : String) (p : PointItem),
        MapItem.parse s = some (.pointItem p) → hasCommaWs p.label.data = false)
    ∧ (∀ (s : String) (pre content : List Char),
        s.data.head? = some 'P' →
        splitOnceSpace s.data = some (pre, content) →
        (splitSegs content).length ≠ 8 →
        MapItem.parse s = none) := by
  refine ⟨splitSegs_no_pattern, ?_, ?_⟩
  · intro s p h
    obtain ⟨hhead, hp⟩ := (mapItem_parse_eq_point s p).mp h
    obtain ⟨pre, content, x, y, z, r, g, b, pt, lab, hsp, hsegs, hx, hc, hlab⟩ :=
      (pointItem_parse_eq_some s p).mp hp
    rw [hlab]
    exact splitSegs_no_pattern content lab (by rw [hsegs]; simp)
  · intro s pre content hhead hsp hn
    have hpt := pointItem_parse_none_of_count s pre content hsp hn
    rw [MapItem.parse]
    cases hd : s.data with
    | nil => rfl
    | cons c t =>
      have hc : c = 'P' := by rw [hd] at hhead; simpa using hhead
      subst hc
      dsimp only
      rw [if_pos rfl, hpt]
      rfl

/-- Witness for C10: a point line whose label field contains a comma
followed by a space splits into nine segments and fails to parse. -/
theorem eqmaps_C10_witness :
    MapItem.parse "P 1, 2, 3, 4, 5, 6, 7, bad, label" = none :=
  eqmaps_C10.2.2 "P 1, 2, 3, 4, 5, 6, 7, bad, label" ("P".data)
    ("1, 2, 3, 4, 5, 6, 7, bad, label".data) (by decide) (by decide) (by decide)

/-- Flattening singleton blocks is mapping. -/
theorem flatten_map_singleton {α β : Type} (f : α → β) :
    ∀ l : List α, (l.map (fun a => [f a])).flatten = l.map f := by
  intro l
  induction l with
  | nil => rfl
  | cons x xs ih => simp [ih]

/-- The body loop of the svg builder emits exactly the per-item
primitives, in item order. -/
theorem svgBody_eq_map (m : MapItems) :
    MapItems.svgBody m = m.items.map MapItem.svg := by
  unfold MapItems.svgBody
  rw [foldl_append_blocks (fun item => [MapItem.svg item])]
  rw [flatten_map_singleton]
  rfl

/-- C3: the view box origin is the pair of minima of the projected
coordinates (one x and one y per point item, two per line item), its
width and height are the coordinate ranges, and the empty item set gives
the explicit (0, 0, 0, 0) fallback rather than an error. -/
theorem eqmaps_C3 :
    (∀ m : MapItems, m.items ≠ [] →
      ∃ minX minY maxX maxY : ℚ,
        minX ∈ projXs m ∧ (∀ a ∈ projXs m, minX ≤ a) ∧
        maxX ∈ projXs m ∧ (∀ a ∈ projXs m, a ≤ maxX) ∧
        minY ∈ projYs m ∧ (∀ a ∈ projYs m, minY ≤ a) ∧
        maxY ∈ projYs m ∧ (∀ a ∈ projYs m, a ≤ maxY) ∧
        map_view_box m = (minX, minY, maxX - minX, maxY - minY))
    ∧ map_view_box { items := [] } = (0, 0, 0, 0) := by
  constructor
  · exact view_box_bounds
  · simp [map_view_box, sortFloats, projXs, projYs]

/-- Witness for C3 at a concrete one-point item set. -/
theorem eqmaps_C3_witness :
    samplePointItems.items ≠ [] ∧
    (∃ minX minY maxX maxY : ℚ,
      minX ∈ projXs samplePointItems ∧ (∀ a ∈ projXs samplePointItems, minX ≤ a) ∧
      maxX ∈ projXs samplePointItems ∧ (∀ a ∈ projXs samplePointItems, a ≤ maxX) ∧
      minY ∈ projYs samplePointItems ∧ (∀ a ∈ projYs samplePointItems, minY ≤ a) ∧
      maxY ∈ projYs samplePointItems ∧ (∀ a ∈ projYs samplePointItems, a ≤ maxY) ∧
      map_view_box samplePointItems = (minX, minY, maxX - minX, maxY - minY)) :=
  ⟨by decide, eqmaps_C3.1 samplePointItems (by decide)⟩

/-- C4: the built vector document contains exactly one primitive per
item, in aggregate item order: a stroked path for each line item and a
filled circle of radius 3 centered at the point for each point item. -/
theorem eqmaps_C4 :
    (∀ m : MapItems, (MapItems.svg m).prims = m.items.map MapItem.svg)
    ∧ (∀ li : LineItem,
        MapItem.svg (.lineItem li) =
          SvgPrim.path li.fromPt.x li.fromPt.y li.toPt.x li.toPt.y li.color)
    ∧ (∀ p : PointItem,
        MapItem.svg (.pointItem p) = SvgPrim.circle p.point.x p.point.y 3 p.color) := by
  refine ⟨?_, fun li => rfl, fun p => rfl⟩
  intro m
  exact svgBody_eq_map m

/-- C5: loading an ordered list of files concatenates the per-file item
lists in file order; in particular files with items a1, a2 and b1 passed
as a pair load to the list a1, a2, b1. -/
theorem eqmaps_C5 :
    (∀ files : List (List String),
      (MapItems.load_from_files files).items =
        (files.map (fun f => (MapItems.load_from_file f).items)).flatten)
    ∧ (∀ (A B : List String) (a1 a2 b1 : MapItem),
        (MapItems.load_from_file A).items = [a1, a2] →
        (MapItems.load_from_file B).items = [b1] →
        (MapItems.load_from_files [A, B]).items = [a1, a2, b1]) := by
  have hgen : ∀ files : List (List String),
      (MapItems.load_from_files files).items =
        (files.map (fun f => (MapItems.load_from_file f).items)).flatten := by
    intro files
    show files.foldl _ [] = _
    rw [foldl_append_blocks (fun f => (MapItems.load_from_file f).items)]
    simp
  refine ⟨hgen, ?_⟩
  intro A B a1 a2 b1 hA hB
  rw [hgen [A, B]]
  simp [hA, hB]

/-- Witness for C5 at two concrete files with two and one parsed items. -/
theorem eqmaps_C5_witness :
    (MapItems.load_from_files
      [["P 1, 2, 3, 4, 5, 6, 7, a", "L 1, 2, 3, 4, 5, 6, 7, 8, 9"],
       ["P 9, 8, 7, 6, 5, 4, 3, b"]]).items =
      [.pointItem { point := { x := 1, y := 2, z := 3 }, color := { r := 4, g := 5, b := 6 }, label := String.mk ("a".data) },
       .lineItem { fromPt := { x := 1, y := 2, z := 3 }, toPt := { x := 4, y := 5, z := 6 }, color := { r := 7, g := 8, b := 9 } },
       .pointItem { point := { x := 9, y := 8, z := 7 }, color := { r := 6, g := 5, b := 4 }, label := String.mk ("b".data) }] :=
  eqmaps_C5.2 ["P 1, 2, 3, 4, 5, 6, 7, a", "L 1, 2, 3, 4, 5, 6, 7, 8, 9"]
    ["P 9, 8, 7, 6, 5, 4, 3, b"]
    (.pointItem { point := { x := 1, y := 2, z := 3 }, color := { r := 4, g := 5, b := 6 }, label := String.mk ("a".data) })
    (.lineItem { fromPt := { x := 1, y := 2, z := 3 }, toPt := { x := 4, y := 5, z := 6 }, color := { r := 7, g := 8, b := 9 } })
    (.pointItem { point := { x := 9, y := 8, z := 7 }, color := { r := 6, g := 5, b := 4 }, label := String.mk ("b".data) })
    (by decide) (by decide)

/-- C6: a line the parser rejects is silently dropped from the loaded
file: removing it does not change the result, and the loaded items are
exactly the parses of the lines on which the parser succeeds. -/
theorem eqmaps_C6 :
    (∀ (pre post : List String) (bad : String),
      MapItem.parse bad = none →
      MapItems.load_from_file (pre ++ bad :: post) =
        MapItems.load_from_file (pre ++ post))
    ∧ (∀ lines : List String,
        (MapItems.load_from_file lines).items =
          (lines.filter (fun l => (MapItem.parse l).isSome)).filterMap
            MapItem.parse) := by
  constructor
  · intro pre post bad hbad
    simp [MapItems.load_from_file, List.filterMap_append, List.filterMap_cons, hbad]
  · intro lines
    induction lines with
    | nil => rfl
    | cons l ls ih =>
      simp only [MapItems.load_from_file] at ih ⊢
      cases hl : MapItem.parse l with
      | none => simpa [List.filterMap_cons, List.filter_cons, hl] using ih
      | some item => simpa [List.filterMap_cons, List.filter_cons, hl] using ih

/-- Witness for C6 at a concrete file with one bad line. -/
theorem eqmaps_C6_witness :
    MapItems.load_from_file ["P 1, 2, 3, 4, 5, 6, 7, a", "garbage"] =
      MapItems.load_from_file ["P 1, 2, 3, 4, 5, 6, 7, a"] :=
  eqmaps_C6.1 ["P 1, 2, 3, 4, 5, 6, 7, a"] [] "garbage" (by decide)

/-- Items that differ at most in z push equal xs and ys in the view box
loop and draw the same primitive. -/
theorem sameXY_components {i j : MapItem} (h : MapItem.sameXY i j) :
    i.pushXs = j.pushXs ∧ i.pushYs = j.pushYs ∧ i.svg = j.svg := by
  cases i with
  | pointItem p =>
    cases j with
    | pointItem q =>
      obtain ⟨⟨hx, hy⟩, hc, hl⟩ := h
      refine ⟨?_, ?_, ?_⟩ <;>
        simp [MapItem.pushXs, MapItem.pushYs, MapItem.svg, PointItem.svg, hx, hy, hc]
    | lineItem lb => cases h
  | lineItem la =>
    cases j with
    | pointItem q => cases h
    | lineItem lb =>
      obtain ⟨⟨hfx, hfy⟩, ⟨htx, hty⟩, hc⟩ := h
      refine ⟨?_, ?_, ?_⟩ <;>
        simp [MapItem.pushXs, MapItem.pushYs, MapItem.svg, LineItem.svg,
          hfx, hfy, htx, hty, hc]

/-- Lists of items that differ at most in z have equal pushes and equal
primitive lists. -/
theorem sameXY_maps {l1 l2 : List MapItem}
    (h : List.Forall₂ MapItem.sameXY l1 l2) :
    l1.map MapItem.pushXs = l2.map MapItem.pushXs ∧
    l1.map MapItem.pushYs = l2.map MapItem.pushYs ∧
    l1.map MapItem.svg = l2.map MapItem.svg := by
  induction h with
  | nil => exact ⟨rfl, rfl, rfl⟩
  | cons hab hrest ih =>
    obtain ⟨h1, h2, h3⟩ := sameXY_components hab
    exact ⟨by simp [h1, ih.1], by simp [h2, ih.2.1], by simp [h3, ih.2.2]⟩

/-- C9: two item sets that differ only in z coordinates produce the same
bounding box and the same vector document: z influences neither. -/
theorem eqmaps_C9 :
    ∀ m1 m2 : MapItems, List.Forall₂ MapItem.sameXY m1.items m2.items →
      map_view_box m1 = map_view_box m2 ∧ MapItems.svg m1 = MapItems.svg m2 := by
  intro m1 m2 h
  obtain ⟨h1, h2, h3⟩ := sameXY_maps h
  have hx : projXs m1 = projXs m2 := by rw [projXs_eq, projXs_eq, h1]
  have hy : projYs m1 = projYs m2 := by rw [projYs_eq, projYs_eq, h2]
  have hbox : map_view_box m1 = map_view_box m2 := by
    unfold map_view_box
    rw [hx, hy]
  refine ⟨hbox, ?_⟩
  unfold MapItems.svg
  rw [hbox, svgBody_eq_map, svgBody_eq_map, h3]

/-- Witness for C9 at two concrete one-point item sets differing only in
z. -/
theorem eqmaps_C9_witness :
    List.Forall₂ MapItem.sameXY
      [.pointItem { point := { x := 3, y := 4, z := 9 }, color := { r := 0, g := 0, b := 0 }, label := String.mk ("a".data) }]
      [.pointItem { point := { x := 3, y := 4, z := 77 }, color := { r := 0, g := 0, b := 0 }, label := String.mk ("a".data) }]
    ∧ (map_view_box { items := [.pointItem { point := { x := 3, y := 4, z := 9 }, color := { r := 0, g := 0, b := 0 }, label := String.mk ("a".data) }] } =
        map_view_box { items := [.pointItem { point := { x := 3, y := 4, z := 77 }, color := { r := 0, g := 0, b := 0 }, label := String.mk ("a".data) }] }
      ∧ MapItems.svg { items := [.pointItem { point := { x := 3, y := 4, z := 9 }, color := { r := 0, g := 0, b := 0 }, label := String.mk ("a".data) }] } =
        MapItems.svg { items := [.pointItem { point := { x := 3, y := 4, z := 77 }, color := { r := 0, g := 0, b := 0 }, label := String.mk ("a".data) }] }) :=
  ⟨List.Forall₂.cons ⟨⟨rfl, rfl⟩, rfl, rfl⟩ List.Forall₂.nil,
   eqmaps_C9 _ _ (List.Forall₂.cons ⟨⟨rfl, rfl⟩, rfl, rfl⟩ List.Forall₂.nil)⟩

end EqMaps
